import Mathlib

/-!
Verification of the SmartDCA bot (src/main.py) against its specification.

The script is shallowly embedded here:
* numeric indicators (all produced by `int(...)` in the source) are `ℤ`;
* price data (floats) are modelled as `ℚ`;
* each fallible external call is an `Option`/`Except` input to the pure
  pipeline, so `main`'s behaviour is a pure function of the fetch outcomes;
* the IEEE-754 / Python behaviour the claims depend on (division of a
  positive value by `0.0` yielding `+inf`, `0.0/0.0` yielding `NaN` whose
  `int(round(...))` raises, banker's rounding in `round` and in `format`)
  is modelled explicitly at the points where it occurs.
-/

namespace SmartDCA

/-! ## Thresholds and classifier (main.py lines 24-26, 114-126) -/

/-- `EXTREME_FEAR_THRESHOLD = 25` from main.py. -/
def EXTREME_FEAR_THRESHOLD : ℤ := 25

/-- `FEAR_THRESHOLD = 44` from main.py. -/
def FEAR_THRESHOLD : ℤ := 44

/-- The three-level sentiment classification named by the spec
(derived in the code through the threshold chain of `get_status_emoji`
and `get_status_text`). -/
inductive Classification where
  | ExtremeFear
  | Fear
  | NeutralOrGreed
deriving DecidableEq, Repr

/-- The threshold chain shared by `get_status_emoji` and
`get_status_text` in main.py: `value <= 25` → extreme fear,
`value <= 44` → fear, otherwise neutral/greed. -/
def classify (value : ℤ) : Classification :=
  if value ≤ EXTREME_FEAR_THRESHOLD then .ExtremeFear
  else if value ≤ FEAR_THRESHOLD then .Fear
  else .NeutralOrGreed

/-- `get_status_emoji` from main.py. -/
def get_status_emoji (value : ℤ) : String :=
  if value ≤ EXTREME_FEAR_THRESHOLD then "🔴"
  else if value ≤ FEAR_THRESHOLD then "🟠"
  else "🔵"

/-- `get_status_text` from main.py (the Python parameter `is_rsi`
defaults to `False`; callers here always pass it explicitly). -/
def get_status_text (value : ℤ) (is_rsi : Bool) : String :=
  if value ≤ EXTREME_FEAR_THRESHOLD then "極度恐懼"
  else if value ≤ FEAR_THRESHOLD then (if is_rsi then "RSI偏低" else "恐懼")
  else "安全/貪婪"

/-- The emoji associated to each classification level in
`get_status_emoji`. -/
def emojiOf : Classification → String
  | .ExtremeFear => "🔴"
  | .Fear => "🟠"
  | .NeutralOrGreed => "🔵"

/-! ## Python rounding

`int(round(x))` in Python (and NumPy's rounding of a `float64`) rounds to
the nearest integer with ties going to the even integer. -/

/-- Round-half-to-even on `ℚ`, the behaviour of Python's `round(x)` on a
finite float. -/
def pyRound (q : ℚ) : ℤ :=
  let f := ⌊q⌋
  if q - f < 1/2 then f
  else if 1/2 < q - f then f + 1
  else if f % 2 = 0 then f else f + 1

/-! ## RSI computation (`fetch_tw_stock_rsi`, main.py lines 68-91)

The pandas pipeline is

    delta = df['Close'].diff()
    gain = (delta.where(delta > 0, 0)).rolling(window=14).mean()
    loss = (-delta.where(delta < 0, 0)).rolling(window=14).mean()
    rs = gain / loss
    rsi = 100 - (100 / (1 + rs))
    return int(round(rsi.iloc[-1]))

Only the last entry of each rolling mean is consumed.  The `.diff()` of a
series of length `n` has one `NaN` followed by the `n - 1` consecutive
differences; `where` turns the leading `NaN` into `0`, and for `n ≥ 15`
(guaranteed by the guard) the final 14-wide rolling window covers exactly
the last 14 real differences.  We therefore embed the computation as a
function of the list of closing prices, working on the last 14 entries of
the difference list. -/

/-- The day-over-day difference series `delta[i] = price[i] - price[i-1]`
(pandas `.diff()` without its leading `NaN`). -/
def diffs (l : List ℚ) : List ℚ := List.zipWith (· - ·) l.tail l

/-- The last 14 entries of the difference series: the deltas covered by
the final `rolling(window=14)` position. -/
def lastWindow (l : List ℚ) : List ℚ :=
  (diffs l).drop ((diffs l).length - 14)

/-- Final entry of `gain.rolling(14).mean()`: the average over the last
window of the positive deltas (others contributing `0`). -/
def avg_gain (l : List ℚ) : ℚ :=
  ((lastWindow l).map (fun d => if 0 < d then d else 0)).sum / 14

/-- Final entry of `loss.rolling(14).mean()`: the average over the last
window of the negated negative deltas (others contributing `0`). -/
def avg_loss (l : List ℚ) : ℚ :=
  ((lastWindow l).map (fun d => if d < 0 then -d else 0)).sum / 14

/-- The value `int(round(rsi.iloc[-1]))` computed by
`fetch_tw_stock_rsi` once the length guard has passed.  The float
edge cases are made explicit:
* `avg_loss = 0, avg_gain > 0`: `rs = gain/0.0 = +inf` in IEEE-754, so
  `rsi = 100 - 100/(1 + inf) = 100.0` exactly, giving `100`;
* `avg_loss = 0, avg_gain = 0`: `rs = 0.0/0.0 = NaN`, so `rsi` is `NaN`
  and `int(round(NaN))` raises `ValueError`, which the surrounding
  `except` turns into `None`;
* otherwise the arithmetic is finite and exact up to float rounding,
  modelled here over `ℚ`. -/
def rsiLast (closes : List ℚ) : Option ℤ :=
  if avg_loss closes = 0 then
    if avg_gain closes = 0 then none
    else some 100
  else some (pyRound (100 - 100 / (1 + avg_gain closes / avg_loss closes)))

/-- `fetch_tw_stock_rsi` from main.py, as a function of the downloaded
closing-price series (the external `yf.download` is the collaborator
producing `closes`; a failed download corresponds to the empty list).
The guard `df.empty or len(df) < 15` returns `None` before the RSI
arithmetic runs. -/
def fetch_tw_stock_rsi (closes : List ℚ) : Option ℤ :=
  if closes.isEmpty || closes.length < 15 then none
  else rsiLast closes

/-! ## Price formatting (`format_price`, main.py lines 28-34) -/

/-- Digit characters of `n % 10` etc. use core's `Nat.digitChar`.
`padDigits k n` is the `k`-character zero-padded decimal rendering of
`n mod 10^k`, least-significant digit last — the fractional part of
Python's `f"{x:.8f}"`. -/
def padDigits : ℕ → ℕ → List Char
  | 0, _ => []
  | k+1, n => padDigits k (n / 10) ++ [Nat.digitChar (n % 10)]

/-- Decimal digits of a natural number, most significant first
(`"0"` for `0`). -/
def natDigitsMSF (n : ℕ) : List Char :=
  if h : n < 10 then [Nat.digitChar n]
  else natDigitsMSF (n / 10) ++ [Nat.digitChar (n % 10)]
decreasing_by exact Nat.div_lt_self (by omega) (by omega)

/-- Insert `','` after every three characters of a least-significant-first
digit list (no trailing separator). -/
def group3r : List Char → List Char
  | a :: b :: c :: d :: rest => a :: b :: c :: ',' :: group3r (d :: rest)
  | l => l

/-- Thousands grouping of a most-significant-first digit list, as in
Python's `","` format flag. -/
def group3 (ds : List Char) : List Char :=
  (group3r ds.reverse).reverse

/-- Python `f"{price:.8f}"`: fixed-point with exactly 8 fractional
digits, rounding half to even at the 8th decimal.  The sign comes from
the sign of the value (Python prints `-0.00000000` for tiny negatives). -/
def formatFixed8 (q : ℚ) : String :=
  let n : ℤ := pyRound (q * 10 ^ 8)
  let sign : List Char := if q < 0 then ['-'] else []
  String.mk (sign ++ natDigitsMSF (n.natAbs / 10 ^ 8) ++ '.' :: padDigits 8 (n.natAbs % 10 ^ 8))

/-- Python `f"{price:,.0f}"` applied to the rounded integer: thousands
grouping, no fractional part. -/
def intGrouped (z : ℤ) : String :=
  String.mk ((if z < 0 then ['-'] else []) ++ group3 (natDigitsMSF z.natAbs))

/-- `format_price` from main.py. -/
def format_price (price : Option ℚ) : String :=
  match price with
  | none => "N/A"
  | some price => if price < 1 then formatFixed8 price else intGrouped (pyRound price)

/-! ## Pipeline state (`main`, main.py lines 165-270)

`main` is a straight-line function of the outcomes of its external calls.
We package those outcomes as a record: each fetch is an `Option`, the
Gemini call is an `Except` (any exception inside `generate_ai_advice`'s
`try` is an `error`), and the LINE token is the credential read from the
environment. -/

/-- Result of `fetch_price_stats` when it succeeds: current price and
1-year high/low. -/
structure PriceStats where
  current : ℚ
  high : ℚ
  low : ℚ
deriving DecidableEq, Repr

/-- The outcomes of all external interactions within one run of `main`. -/
structure FetchResults where
  crypto_fng : Option ℤ
  us_stock_fng : Option ℤ
  tw_stock_rsi : Option ℤ
  btc_stats : Option PriceStats
  eth_stats : Option PriceStats
  spy_stats : Option PriceStats
  tw50_stats : Option PriceStats
  gemini_key : Option String
  ai_response : Except Unit String
  line_token : Option String

/-- One `"\n   - LABEL: $cur (1Y High: $hi, Low: $lo)"` enrichment line
(main.py lines 192, 196, 211, 226). -/
def statsLine (label : String) (s : PriceStats) : String :=
  "\n   - " ++ label ++ ": $" ++ format_price (some s.current)
    ++ " (1Y High: $" ++ format_price (some s.high)
    ++ ", Low: $" ++ format_price (some s.low) ++ ")"

/-- The crypto block of the message (main.py lines 184-198). -/
def crypto_entry (v : ℤ) (btc eth : Option PriceStats) : String :=
  let msg := "🪙 加密貨幣: " ++ toString v ++ " (" ++ get_status_text v false
    ++ " " ++ get_status_emoji v ++ ")"
  let msg := match btc with
    | some s => msg ++ statsLine "BTC" s
    | none => msg
  match eth with
  | some s => msg ++ statsLine "ETH" s
  | none => msg

/-- The US-stock block of the message (main.py lines 203-213). -/
def us_entry (v : ℤ) (spy : Option PriceStats) : String :=
  let msg := "🇺🇸 美股: " ++ toString v ++ " (" ++ get_status_text v false
    ++ " " ++ get_status_emoji v ++ ")"
  match spy with
  | some s => msg ++ statsLine "SPY" s
  | none => msg

/-- The TW-stock block of the message (main.py lines 218-228); note
`is_rsi=True` in the label. -/
def tw_entry (v : ℤ) (tw50 : Option PriceStats) : String :=
  let msg := "🇹🇼 台股(0050): " ++ toString v ++ " (" ++ get_status_text v true
    ++ " " ++ get_status_emoji v ++ ")"
  match tw50 with
  | some s => msg ++ statsLine "0050" s
  | none => msg

/-- `market_status_list` as built by `main` (lines 180-228): starting
from `[]`, each of the three markets appends its block when its
indicator is present, in the fixed order crypto, US, TW. -/
def market_status_list (r : FetchResults) : List String :=
  let l : List String := []
  let l := match r.crypto_fng with
    | some v => l ++ [crypto_entry v r.btc_stats r.eth_stats]
    | none => l
  let l := match r.us_stock_fng with
    | some v => l ++ [us_entry v r.spy_stats]
    | none => l
  match r.tw_stock_rsi with
  | some v => l ++ [tw_entry v r.tw50_stats]
  | none => l

/-- `has_buy_signal` as set by `main` (lines 181, 199-200, 214-215,
229-230): initially `False`, set to `True` by each present market whose
indicator is `<= FEAR_THRESHOLD`. -/
def has_buy_signal (r : FetchResults) : Bool :=
  let b := false
  let b := match r.crypto_fng with
    | some v => if v ≤ FEAR_THRESHOLD then true else b
    | none => b
  let b := match r.us_stock_fng with
    | some v => if v ≤ FEAR_THRESHOLD then true else b
    | none => b
  match r.tw_stock_rsi with
  | some v => if v ≤ FEAR_THRESHOLD then true else b
  | none => b

/-- The header chosen in main.py lines 232-236. -/
def header (r : FetchResults) : String :=
  if has_buy_signal r then "🔥 Smart DCA 訊號觸發 🔥"
  else "📊 每日市場觀察報告"

/-- The closing call-to-action appended in main.py lines 247-250. -/
def cta (r : FetchResults) : String :=
  if has_buy_signal r then "\n\n💡 建議分批進場"
  else "\n\n💡 市場情緒穩定，請持續觀察"

/-- `generate_ai_advice` from main.py (lines 128-163).  The Gemini call
`model.generate_content(prompt)` on the prompt built from
`market_status_list` is the external collaborator; its outcome is the
`response` argument (`ok` carrying `response.text`, `error` for any
exception inside the `try`).  The list argument mirrors the Python
parameter; only its serialization into the prompt consumes it, so the
embedded function does not inspect it. -/
def generate_ai_advice (key : Option String) (response : Except Unit String)
    (market_list : List String) : String :=
  match key with
  | none => "⚠️ AI 建議無法產生 (未設定 API Key)"
  | some _ =>
    match response with
    | .ok t => t.trim
    | .error _ => "⚠️ AI 暫時無法提供建議"

/-- The full `message_text` assembled by `main` (lines 238-250):
header, blank-line-joined market blocks, AI-advice block, call to
action. -/
def message_text (r : FetchResults) : String :=
  header r ++ "\n\n" ++ String.intercalate "\n\n" (market_status_list r)
    ++ "\n\n🤖 AI 投資顧問建議:\n"
    ++ generate_ai_advice r.gemini_key r.ai_response (market_status_list r)
    ++ cta r

/-- Observable outcome of one run of `main`. -/
structure RunOutput where
  credErrorReported : Bool
  messageText : String
  broadcastAttempted : Bool
deriving Repr

/-- `main` from main.py (lines 165-270).  The missing-token check at
lines 166-168 only prints an error — the `return` on line 168 is
commented out in the source ("Allow running locally without LINE token
for debug") — so execution always continues through fetching,
aggregation and message assembly; the broadcast at lines 252-270 is
attempted exactly when the token is present. -/
def runMain (r : FetchResults) : RunOutput :=
  { credErrorReported := r.line_token.isNone
    messageText := message_text r
    broadcastAttempted := r.line_token.isSome }

/-! ## Concrete runs used as check inputs -/

/-- Run with indicators (10, 50, 90), no price stats, token present. -/
def r_10_50_90 : FetchResults :=
  ⟨some 10, some 50, some 90, none, none, none, none, none, .ok "advice", some "token"⟩

/-- Run with indicators (90, 90, 90), no price stats, token present. -/
def r_90_90_90 : FetchResults :=
  ⟨some 90, some 90, some 90, none, none, none, none, none, .ok "advice", some "token"⟩

/-- Run with only the crypto indicator present and the LINE token
absent. -/
def r_noToken : FetchResults :=
  ⟨some 10, none, none, none, none, none, none, none, .ok "advice", none⟩

/-- Run with US indicator absent, the others present. -/
def r_usAbsent : FetchResults :=
  ⟨some 20, none, some 30, none, none, none, none, none, .ok "advice", some "token"⟩

/-- Run whose Gemini call failed. -/
def r_aiFail : FetchResults :=
  ⟨some 50, none, none, none, none, none, none, some "key", .error (), some "token"⟩

/-- A 15-price strictly alternating series used to exhibit the window
shift: prices 10, 12 and then (11, 12) repeated, ending at 11. -/
def altCloses : List ℚ :=
  [10, 12, 11, 12, 11, 12, 11, 12, 11, 12, 11, 12, 11, 12, 11]

/-- A strictly increasing 15-price series. -/
def upCloses : List ℚ :=
  [1, 2, 3, 4, 5, 6, 7, 8, 9, 10, 11, 12, 13, 14, 15]

/-- A strictly decreasing 15-price series. -/
def downCloses : List ℚ :=
  [15, 14, 13, 12, 11, 10, 9, 8, 7, 6, 5, 4, 3, 2, 1]

end SmartDCA

namespace SmartDCA

/-! ## C1: the classifier partition -/

/-- C1: the classifier partitions the indicator axis at 25 and 44
(inclusive upper bounds): `ExtremeFear` iff `v ≤ 25`, `Fear` iff
`25 < v ≤ 44`, `NeutralOrGreed` iff `44 < v`; the boundary inputs 25,
44 and 45 land in the three classes respectively, and the emoji returned
by `get_status_emoji` follows the same partition. -/
theorem classify_partition :
    (∀ v : ℤ, (classify v = .ExtremeFear ↔ v ≤ 25)
      ∧ (classify v = .Fear ↔ 25 < v ∧ v ≤ 44)
      ∧ (classify v = .NeutralOrGreed ↔ 44 < v))
    ∧ classify 25 = .ExtremeFear ∧ classify 44 = .Fear
    ∧ classify 45 = .NeutralOrGreed
    ∧ ∀ v : ℤ, get_status_emoji v = emojiOf (classify v) := by
  refine ⟨fun v => ?_, by decide, by decide, by decide, fun v => ?_⟩
  · unfold classify EXTREME_FEAR_THRESHOLD FEAR_THRESHOLD
    refine ⟨?_, ?_, ?_⟩ <;> split_ifs with h1 h2 <;> simp_all <;> omega
  · unfold classify get_status_emoji emojiOf EXTREME_FEAR_THRESHOLD FEAR_THRESHOLD
    split_ifs <;> rfl

end SmartDCA

namespace SmartDCA

/-! ## RSI helper lemmas -/

theorem length_diffs (l : List ℚ) : (diffs l).length = l.length - 1 := by
  simp [diffs]

theorem diffs_cons_cons (a b : ℚ) (t : List ℚ) :
    diffs (a :: b :: t) = (b - a) :: diffs (b :: t) := rfl

theorem diffs_drop (l : List ℚ) (k : ℕ) :
    diffs (l.drop k) = (diffs l).drop k := by
  unfold diffs
  rw [List.drop_zipWith]
  congr 1
  rw [List.tail_drop, ← List.drop_one, List.drop_drop, Nat.add_comm]

theorem chain_lt_diffs_pos (w : List ℚ) :
    List.Chain' (· < ·) w → ∀ d ∈ diffs w, 0 < d := by
  induction w with
  | nil => simp [diffs]
  | cons a t ih =>
    cases t with
    | nil => simp [diffs]
    | cons b t' =>
      intro h d hd
      rw [diffs_cons_cons] at hd
      rw [List.chain'_cons] at h
      rcases List.mem_cons.1 hd with rfl | hd'
      · linarith [h.1]
      · exact ih h.2 d hd'

theorem chain_gt_diffs_neg (w : List ℚ) :
    List.Chain' (· > ·) w → ∀ d ∈ diffs w, d < 0 := by
  induction w with
  | nil => simp [diffs]
  | cons a t ih =>
    cases t with
    | nil => simp [diffs]
    | cons b t' =>
      intro h d hd
      rw [diffs_cons_cons] at hd
      rw [List.chain'_cons] at h
      rcases List.mem_cons.1 hd with rfl | hd'
      · have : b < a := h.1
        linarith
      · exact ih h.2 d hd'

theorem lastWindow_eq_of_length (l : List ℚ) (h : 15 ≤ l.length) :
    lastWindow l = diffs (l.drop (l.length - 15)) := by
  unfold lastWindow
  have h14 : (diffs l).length - 14 = l.length - 15 := by
    rw [length_diffs]; omega
  rw [h14, diffs_drop]

theorem length_lastWindow (l : List ℚ) (h : 15 ≤ l.length) :
    (lastWindow l).length = 14 := by
  unfold lastWindow
  rw [List.length_drop, length_diffs]
  omega

theorem avg_loss_eq_zero (l : List ℚ) (hnn : ∀ d ∈ lastWindow l, 0 ≤ d) :
    avg_loss l = 0 := by
  unfold avg_loss
  rw [List.sum_eq_zero, zero_div]
  intro x hx
  obtain ⟨d, hd, rfl⟩ := List.mem_map.1 hx
  rw [if_neg (not_lt.2 (hnn d hd))]

theorem avg_gain_eq_zero (l : List ℚ) (hnp : ∀ d ∈ lastWindow l, d ≤ 0) :
    avg_gain l = 0 := by
  unfold avg_gain
  rw [List.sum_eq_zero, zero_div]
  intro x hx
  obtain ⟨d, hd, rfl⟩ := List.mem_map.1 hx
  rw [if_neg (not_lt.2 (hnp d hd))]

theorem avg_gain_pos (l : List ℚ) (hex : ∃ d ∈ lastWindow l, 0 < d) :
    0 < avg_gain l := by
  obtain ⟨d, hd, hdpos⟩ := hex
  have hmem : d ∈ (lastWindow l).map (fun e => if 0 < e then e else 0) :=
    List.mem_map.2 ⟨d, hd, by rw [if_pos hdpos]⟩
  have hnn : ∀ x ∈ (lastWindow l).map (fun e => if 0 < e then e else 0), (0:ℚ) ≤ x := by
    intro x hx
    obtain ⟨e, _, rfl⟩ := List.mem_map.1 hx
    split_ifs with h
    · exact h.le
    · exact le_refl 0
  have hsum := List.single_le_sum hnn d hmem
  unfold avg_gain
  have : (0:ℚ) < ((lastWindow l).map (fun e => if 0 < e then e else 0)).sum :=
    lt_of_lt_of_le hdpos hsum
  positivity

theorem avg_loss_pos (l : List ℚ) (hex : ∃ d ∈ lastWindow l, d < 0) :
    0 < avg_loss l := by
  obtain ⟨d, hd, hdneg⟩ := hex
  have hmem : -d ∈ (lastWindow l).map (fun e => if e < 0 then -e else 0) :=
    List.mem_map.2 ⟨d, hd, by rw [if_pos hdneg]⟩
  have hnn : ∀ x ∈ (lastWindow l).map (fun e => if e < 0 then -e else 0), (0:ℚ) ≤ x := by
    intro x hx
    obtain ⟨e, _, rfl⟩ := List.mem_map.1 hx
    split_ifs with h
    · linarith
    · exact le_refl 0
  have hsum := List.single_le_sum hnn (-d) hmem
  unfold avg_loss
  have : (0:ℚ) < ((lastWindow l).map (fun e => if e < 0 then -e else 0)).sum := by
    linarith
  positivity

theorem not_guard_of_length (closes : List ℚ) (h15 : 15 ≤ closes.length) :
    (closes.isEmpty || decide (closes.length < 15)) = false := by
  rcases closes with _ | ⟨a, t⟩
  · simp at h15
  · simp only [List.isEmpty_cons, Bool.false_or, decide_eq_false_iff_not]
    omega

theorem pyRound_zero : pyRound 0 = 0 := by norm_num [pyRound]

theorem rsi_eq_100 (closes : List ℚ) (h15 : 15 ≤ closes.length)
    (hnn : ∀ d ∈ lastWindow closes, 0 ≤ d)
    (hex : ∃ d ∈ lastWindow closes, 0 < d) :
    fetch_tw_stock_rsi closes = some 100 := by
  unfold fetch_tw_stock_rsi rsiLast
  rw [not_guard_of_length closes h15, if_neg (by simp),
    if_pos (avg_loss_eq_zero closes hnn),
    if_neg (ne_of_gt (avg_gain_pos closes hex))]

theorem rsi_eq_0 (closes : List ℚ) (h15 : 15 ≤ closes.length)
    (hnp : ∀ d ∈ lastWindow closes, d ≤ 0)
    (hex : ∃ d ∈ lastWindow closes, d < 0) :
    fetch_tw_stock_rsi closes = some 0 := by
  unfold fetch_tw_stock_rsi rsiLast
  rw [not_guard_of_length closes h15, if_neg (by simp),
    if_neg (ne_of_gt (avg_loss_pos closes hex)),
    avg_gain_eq_zero closes hnp]
  norm_num [pyRound_zero]

theorem rsi_100_of_chain (closes : List ℚ) (h15 : 15 ≤ closes.length)
    (hch : List.Chain' (· < ·) (closes.drop (closes.length - 15))) :
    fetch_tw_stock_rsi closes = some 100 := by
  have hw := lastWindow_eq_of_length closes h15
  have hpos : ∀ d ∈ lastWindow closes, 0 < d := by
    rw [hw]; exact chain_lt_diffs_pos _ hch
  have hlen := length_lastWindow closes h15
  have hne : lastWindow closes ≠ [] := by
    intro h; rw [h] at hlen; simp at hlen
  obtain ⟨d, hd⟩ := List.exists_mem_of_ne_nil _ hne
  exact rsi_eq_100 closes h15 (fun d hd => (hpos d hd).le) ⟨d, hd, hpos d hd⟩

theorem rsi_0_of_chain (closes : List ℚ) (h15 : 15 ≤ closes.length)
    (hch : List.Chain' (· > ·) (closes.drop (closes.length - 15))) :
    fetch_tw_stock_rsi closes = some 0 := by
  have hw := lastWindow_eq_of_length closes h15
  have hneg : ∀ d ∈ lastWindow closes, d < 0 := by
    rw [hw]; exact chain_gt_diffs_neg _ hch
  have hlen := length_lastWindow closes h15
  have hne : lastWindow closes ≠ [] := by
    intro h; rw [h] at hlen; simp at hlen
  obtain ⟨d, hd⟩ := List.exists_mem_of_ne_nil _ hne
  exact rsi_eq_0 closes h15 (fun d hd => (hneg d hd).le) ⟨d, hd, hneg d hd⟩

end SmartDCA

namespace SmartDCA

/-! ## C4: the length guard of the RSI fetch -/

/-- C4: an empty series or one with fewer than 15 observations makes
`fetch_tw_stock_rsi` return `none` before any RSI arithmetic; with at
least 15 observations the guard passes and the 14-period RSI
computation `rsiLast` runs. -/
theorem fetch_tw_stock_rsi_guard :
    (∀ closes : List ℚ, closes.length < 15 → fetch_tw_stock_rsi closes = none)
    ∧ ∀ closes : List ℚ, 15 ≤ closes.length →
        fetch_tw_stock_rsi closes = rsiLast closes := by
  constructor
  · intro closes h
    unfold fetch_tw_stock_rsi
    rw [if_pos]
    simp [h]
  · intro closes h
    unfold fetch_tw_stock_rsi
    rw [not_guard_of_length closes h, if_neg (by simp)]

/-- Witness for C4 at the concrete series `[1, 2, 3]` (too short) and
the 15-point series `upCloses`. -/
theorem fetch_tw_stock_rsi_guard_witness :
    fetch_tw_stock_rsi [(1:ℚ), 2, 3] = none
    ∧ fetch_tw_stock_rsi upCloses = rsiLast upCloses :=
  ⟨fetch_tw_stock_rsi_guard.1 _ (by norm_num),
   fetch_tw_stock_rsi_guard.2 _ (by norm_num [upCloses])⟩

/-! ## C5: monotone windows hit the division-by-zero edge case -/

/-- C5: on a series of at least 15 prices whose trailing 15-price window
is strictly increasing, the trailing average loss is zero; the code's
`rs = gain/loss` is then the IEEE `+inf` and the RSI comes out exactly
100.  Dually, a strictly decreasing trailing window gives RSI 0. -/
theorem rsi_monotone_extremes :
    (∀ closes : List ℚ, 15 ≤ closes.length →
      List.Chain' (· < ·) (closes.drop (closes.length - 15)) →
      fetch_tw_stock_rsi closes = some 100)
    ∧ ∀ closes : List ℚ, 15 ≤ closes.length →
      List.Chain' (· > ·) (closes.drop (closes.length - 15)) →
      fetch_tw_stock_rsi closes = some 0 :=
  ⟨rsi_100_of_chain, rsi_0_of_chain⟩

/-- Witness for C5 at the concrete monotone series `upCloses` and
`downCloses`. -/
theorem rsi_monotone_extremes_witness :
    fetch_tw_stock_rsi upCloses = some 100
    ∧ fetch_tw_stock_rsi downCloses = some 0 :=
  ⟨rsi_monotone_extremes.1 upCloses (by norm_num [upCloses])
    (by norm_num [upCloses, List.chain'_cons]),
   rsi_monotone_extremes.2 downCloses (by norm_num [downCloses])
    (by norm_num [downCloses, List.chain'_cons])⟩

/-! ## C6: extension with repeated final prices -/

theorem diffs_concat (ys : List ℚ) (b c : ℚ) (h : ys.getLast? = some b) :
    diffs (ys ++ [c]) = diffs ys ++ [c - b] := by
  induction ys with
  | nil => simp at h
  | cons a t ih =>
    cases t with
    | nil =>
      simp only [List.getLast?_singleton, Option.some_inj] at h
      subst h
      simp [diffs]
    | cons y t' =>
      have h' : (y :: t').getLast? = some b := by
        rwa [List.getLast?_cons_cons] at h
      have e1 : (a :: y :: t') ++ [c] = a :: y :: (t' ++ [c]) := rfl
      rw [e1, diffs_cons_cons, show y :: (t' ++ [c]) = (y :: t') ++ [c] from rfl,
        ih h', diffs_cons_cons]
      rfl

theorem getLast?_append_replicate (xs : List ℚ) (c : ℚ) (h : xs.getLast? = some c)
    (k : ℕ) : (xs ++ List.replicate k c).getLast? = some c := by
  induction k with
  | zero => simpa using h
  | succ k ih =>
    rw [List.replicate_succ', ← List.append_assoc, List.getLast?_concat]

theorem diffs_append_replicate (xs : List ℚ) (c : ℚ) (h : xs.getLast? = some c)
    (k : ℕ) :
    diffs (xs ++ List.replicate k c) = diffs xs ++ List.replicate k 0 := by
  induction k with
  | zero => simp
  | succ k ih =>
    rw [List.replicate_succ', ← List.append_assoc,
      diffs_concat _ c c (getLast?_append_replicate xs c h k), ih, sub_self,
      List.replicate_succ' k (0:ℚ), ← List.append_assoc]

theorem lastWindow_append_replicate (closes : List ℚ) (c : ℚ) (k : ℕ)
    (h15 : 15 ≤ closes.length) (hlast : closes.getLast? = some c) (hk : k ≤ 13) :
    lastWindow (closes ++ List.replicate k c)
      = (lastWindow closes).drop k ++ List.replicate k 0 := by
  unfold lastWindow
  rw [diffs_append_replicate closes c hlast k]
  rw [List.length_append, length_diffs, List.length_replicate]
  rw [List.drop_append_eq_append_drop, length_diffs]
  have e0 : closes.length - 1 + k - 14 - (closes.length - 1) = 0 := by omega
  rw [e0, List.drop_zero]
  congr 1
  rw [List.drop_drop]
  congr 1
  omega

/-- Counterexample to C6 as stated: for the 15-price series
`altCloses` (ending at price 11), appending one more copy of the final
price pushes the large initial gain out of the 14-delta window and the
RSI drops from 53 to 46. -/
theorem rsi_extension_counterexample :
    altCloses.getLast? = some 11
    ∧ fetch_tw_stock_rsi altCloses = some 53
    ∧ fetch_tw_stock_rsi (altCloses ++ [11]) = some 46 := by
  refine ⟨rfl, ?_, ?_⟩ <;>
    norm_num [fetch_tw_stock_rsi, rsiLast, avg_gain, avg_loss, lastWindow, diffs,
      altCloses, pyRound, Int.floor_eq_iff]

/-- C6 as amended: the RSI computation is deterministic (equal input
series give equal results), but extending a series with repeated copies
of its final price changes the computed RSI in general, because the
appended zero deltas displace older deltas from the trailing 14-delta
window; the value is preserved in the division-by-zero regime — for a
series whose trailing 15 prices are strictly increasing, appending up to
13 copies of the final price leaves the RSI at 100. -/
theorem rsi_deterministic_and_flat_extension :
    (∀ c1 c2 : List ℚ, c1 = c2 →
      fetch_tw_stock_rsi c1 = fetch_tw_stock_rsi c2)
    ∧ ∀ (closes : List ℚ) (c : ℚ) (k : ℕ), 15 ≤ closes.length →
        closes.getLast? = some c → k ≤ 13 →
        List.Chain' (· < ·) (closes.drop (closes.length - 15)) →
        fetch_tw_stock_rsi (closes ++ List.replicate k c)
          = fetch_tw_stock_rsi closes := by
  refine ⟨fun c1 c2 h => by rw [h], ?_⟩
  intro closes c k h15 hlast hk hch
  rw [rsi_100_of_chain closes h15 hch]
  have hlen' : 15 ≤ (closes ++ List.replicate k c).length := by
    rw [List.length_append]; omega
  have hwin := lastWindow_append_replicate closes c k h15 hlast hk
  have hposw : ∀ d ∈ lastWindow closes, 0 < d := by
    rw [lastWindow_eq_of_length closes h15]
    exact chain_lt_diffs_pos _ hch
  have hnn : ∀ d ∈ lastWindow (closes ++ List.replicate k c), 0 ≤ d := by
    intro d hd
    rw [hwin] at hd
    rcases List.mem_append.1 hd with h1 | h2
    · exact (hposw d (List.drop_subset _ _ h1)).le
    · rw [List.eq_of_mem_replicate h2]
  have hex : ∃ d ∈ lastWindow (closes ++ List.replicate k c), 0 < d := by
    have hlen : ((lastWindow closes).drop k).length = 14 - k := by
      rw [List.length_drop, length_lastWindow closes h15]
    have hne : (lastWindow closes).drop k ≠ [] := by
      intro h0
      rw [h0] at hlen
      simp at hlen
      omega
    obtain ⟨d, hd⟩ := List.exists_mem_of_ne_nil _ hne
    refine ⟨d, ?_, hposw d (List.drop_subset _ _ hd)⟩
    rw [hwin]
    exact List.mem_append_left _ hd
  exact rsi_eq_100 _ hlen' hnn hex

/-- Witness for C6 (amended) at the concrete strictly increasing series
`upCloses` extended by two copies of its final price 15. -/
theorem rsi_deterministic_and_flat_extension_witness :
    fetch_tw_stock_rsi (upCloses ++ List.replicate 2 15) = fetch_tw_stock_rsi upCloses :=
  rsi_deterministic_and_flat_extension.2 upCloses 15 2
    (by norm_num [upCloses]) (by norm_num [upCloses]) (by norm_num)
    (by norm_num [upCloses, List.chain'_cons])

end SmartDCA

namespace SmartDCA

/-! ## C2: contents of the market list -/

/-- Counterexample to C2 as stated: `main` appends every *present*
market to `market_status_list` (source comment "Collect status for ALL
markets"), not only the triggered ones.  With indicators (10, 50, 90)
the list has all three entries — in particular the non-triggered US
entry — instead of exactly the crypto entry, and with (90, 90, 90) it is
not empty. -/
theorem market_list_counterexample :
    market_status_list r_10_50_90
      = [crypto_entry 10 none none, us_entry 50 none, tw_entry 90 none]
    ∧ (market_status_list r_10_50_90).length ≠ 1
    ∧ market_status_list r_90_90_90 ≠ [] := by
  refine ⟨rfl, ?_, ?_⟩
  · simp [market_status_list, r_10_50_90]
  · simp [market_status_list, r_90_90_90]

/-- C2 as amended: the list produced by the aggregation step contains
exactly the *present* markets (regardless of whether they trigger),
listed in the fixed order crypto, US, TW; with indicators (10, 50, 90)
it has three entries, as it does with (90, 90, 90). -/
theorem market_list_present_in_order :
    (∀ r : FetchResults, market_status_list r
      = (r.crypto_fng.map (fun v => crypto_entry v r.btc_stats r.eth_stats)).toList
        ++ (r.us_stock_fng.map (fun v => us_entry v r.spy_stats)).toList
        ++ (r.tw_stock_rsi.map (fun v => tw_entry v r.tw50_stats)).toList)
    ∧ (market_status_list r_10_50_90).length = 3
    ∧ (market_status_list r_90_90_90).length = 3 := by
  refine ⟨?_, rfl, rfl⟩
  intro r
  rcases r with ⟨c, u, t, b, e, s, w, g, a, tok⟩
  cases c <;> cases u <;> cases t <;> simp [market_status_list]

/-! ## C3: the trigger flag, header and call to action -/

/-- C3: `has_buy_signal` is the OR, over the present indicators only, of
`value ≤ 44`; the header is the signal header exactly when the flag is
set and the daily-observation header otherwise, and the closing
call-to-action line likewise follows the flag. -/
theorem has_buy_signal_spec :
    ∀ r : FetchResults,
      (has_buy_signal r = true ↔
        ((∃ v, r.crypto_fng = some v ∧ v ≤ 44)
          ∨ (∃ v, r.us_stock_fng = some v ∧ v ≤ 44)
          ∨ (∃ v, r.tw_stock_rsi = some v ∧ v ≤ 44)))
      ∧ (header r = "🔥 Smart DCA 訊號觸發 🔥" ↔ has_buy_signal r = true)
      ∧ (header r = "📊 每日市場觀察報告" ↔ has_buy_signal r = false)
      ∧ (cta r = "\n\n💡 建議分批進場" ↔ has_buy_signal r = true)
      ∧ (cta r = "\n\n💡 市場情緒穩定，請持續觀察" ↔ has_buy_signal r = false) := by
  intro r
  refine ⟨?_, ?_⟩
  · rcases r with ⟨c, u, t, b, e, s, w, g, a, tok⟩
    cases c <;> cases u <;> cases t <;>
      simp [has_buy_signal, FEAR_THRESHOLD] <;> tauto
  · cases hb : has_buy_signal r <;>
      refine ⟨?_, ?_, ?_, ?_⟩ <;> simp [header, cta, hb] <;> decide

end SmartDCA

namespace SmartDCA

/-! ## C7: absent indicators are skipped, not fatal -/

/-- C7: when a market's indicator is absent, its entry is missing from
the market list, it contributes nothing to the trigger flag, and the
message is still assembled from the remaining markets' entries (so the
absence neither aborts the run nor surfaces as an error in the output
message, which is built exclusively from the present markets' blocks). -/
theorem absent_market_skipped :
    ∀ r : FetchResults,
      (r.crypto_fng = none →
        market_status_list r
          = (r.us_stock_fng.map (fun v => us_entry v r.spy_stats)).toList
            ++ (r.tw_stock_rsi.map (fun v => tw_entry v r.tw50_stats)).toList
        ∧ (has_buy_signal r = true ↔
            ((∃ v, r.us_stock_fng = some v ∧ v ≤ 44)
              ∨ (∃ v, r.tw_stock_rsi = some v ∧ v ≤ 44))))
      ∧ (r.us_stock_fng = none →
        market_status_list r
          = (r.crypto_fng.map (fun v => crypto_entry v r.btc_stats r.eth_stats)).toList
            ++ (r.tw_stock_rsi.map (fun v => tw_entry v r.tw50_stats)).toList
        ∧ (has_buy_signal r = true ↔
            ((∃ v, r.crypto_fng = some v ∧ v ≤ 44)
              ∨ (∃ v, r.tw_stock_rsi = some v ∧ v ≤ 44))))
      ∧ (r.tw_stock_rsi = none →
        market_status_list r
          = (r.crypto_fng.map (fun v => crypto_entry v r.btc_stats r.eth_stats)).toList
            ++ (r.us_stock_fng.map (fun v => us_entry v r.spy_stats)).toList
        ∧ (has_buy_signal r = true ↔
            ((∃ v, r.crypto_fng = some v ∧ v ≤ 44)
              ∨ (∃ v, r.us_stock_fng = some v ∧ v ≤ 44))))
      ∧ message_text r = header r ++ "\n\n"
          ++ String.intercalate "\n\n" (market_status_list r)
          ++ "\n\n🤖 AI 投資顧問建議:\n"
          ++ generate_ai_advice r.gemini_key r.ai_response (market_status_list r)
          ++ cta r := by
  intro r
  rcases r with ⟨c, u, t, b, e, s, w, g, a, tok⟩
  refine ⟨?_, ?_, ?_, rfl⟩
  · rintro rfl
    constructor
    · cases u <;> cases t <;> simp [market_status_list]
    · cases u <;> cases t <;> simp [has_buy_signal, FEAR_THRESHOLD] <;> tauto
  · rintro rfl
    constructor
    · cases c <;> cases t <;> simp [market_status_list]
    · cases c <;> cases t <;> simp [has_buy_signal, FEAR_THRESHOLD] <;> tauto
  · rintro rfl
    constructor
    · cases c <;> cases u <;> simp [market_status_list]
    · cases c <;> cases u <;> simp [has_buy_signal, FEAR_THRESHOLD] <;> tauto

/-- Witness for C7: the run `r_usAbsent` (US indicator absent) keeps the
crypto and TW entries and its flag is the OR of their triggers. -/
theorem absent_market_skipped_witness :
    market_status_list r_usAbsent
      = (r_usAbsent.crypto_fng.map
          (fun v => crypto_entry v r_usAbsent.btc_stats r_usAbsent.eth_stats)).toList
        ++ (r_usAbsent.tw_stock_rsi.map
          (fun v => tw_entry v r_usAbsent.tw50_stats)).toList
    ∧ (has_buy_signal r_usAbsent = true ↔
        ((∃ v, r_usAbsent.crypto_fng = some v ∧ v ≤ 44)
          ∨ (∃ v, r_usAbsent.tw_stock_rsi = some v ∧ v ≤ 44))) :=
  (absent_market_skipped r_usAbsent).2.1 rfl

/-! ## C8: advisory failure falls back, message still assembled -/

/-- C8: if the Gemini call raises (response is an `error`), the run does
not abort: `generate_ai_advice` returns the fixed fallback string, the
message is still assembled around that fallback with header, market
blocks and call to action, and the broadcast step is still reached
(attempted whenever the token is present). -/
theorem ai_failure_fallback :
    ∀ (r : FetchResults) (k : String), r.gemini_key = some k →
      r.ai_response = Except.error () →
      generate_ai_advice r.gemini_key r.ai_response (market_status_list r)
          = "⚠️ AI 暫時無法提供建議"
      ∧ message_text r
          = header r ++ "\n\n" ++ String.intercalate "\n\n" (market_status_list r)
            ++ "\n\n🤖 AI 投資顧問建議:\n" ++ "⚠️ AI 暫時無法提供建議"
            ++ cta r
      ∧ (runMain r).broadcastAttempted = r.line_token.isSome := by
  intro r k hk he
  have h1 : generate_ai_advice r.gemini_key r.ai_response (market_status_list r)
      = "⚠️ AI 暫時無法提供建議" := by
    rw [hk, he]
    rfl
  refine ⟨h1, ?_, rfl⟩
  unfold message_text
  rw [h1]

/-- Witness for C8 at the concrete run `r_aiFail`. -/
theorem ai_failure_fallback_witness :
    generate_ai_advice r_aiFail.gemini_key r_aiFail.ai_response
        (market_status_list r_aiFail) = "⚠️ AI 暫時無法提供建議"
    ∧ message_text r_aiFail
        = header r_aiFail ++ "\n\n"
          ++ String.intercalate "\n\n" (market_status_list r_aiFail)
          ++ "\n\n🤖 AI 投資顧問建議:\n" ++ "⚠️ AI 暫時無法提供建議"
          ++ cta r_aiFail
    ∧ (runMain r_aiFail).broadcastAttempted = r_aiFail.line_token.isSome :=
  ai_failure_fallback r_aiFail "key" rfl rfl

/-! ## C9: missing LINE credential -/

/-- Counterexample to C9 as stated: with the LINE token absent, `main`
reports the condition and skips the broadcast but does *not* return
early — the `return` at main.py line 168 is commented out ("Allow
running locally without LINE token for debug") — so the whole pipeline
still runs: on the run `r_noToken` the market list is still built and
the full message is still assembled after the report. -/
theorem missing_token_counterexample :
    r_noToken.line_token = none
    ∧ (runMain r_noToken).credErrorReported = true
    ∧ (runMain r_noToken).broadcastAttempted = false
    ∧ market_status_list r_noToken = [crypto_entry 10 none none]
    ∧ (runMain r_noToken).messageText
        = "🔥 Smart DCA 訊號觸發 🔥" ++ "\n\n" ++ crypto_entry 10 none none
          ++ "\n\n🤖 AI 投資顧問建議:\n" ++ "⚠️ AI 建議無法產生 (未設定 API Key)"
          ++ "\n\n💡 建議分批進場" := by
  refine ⟨rfl, rfl, rfl, rfl, ?_⟩
  show message_text r_noToken = _
  unfold message_text header cta
  norm_num [has_buy_signal, r_noToken, market_status_list, generate_ai_advice,
    FEAR_THRESHOLD]
  rfl

/-- C9 as amended: when the LINE credential is absent the condition is
reported and no notification is attempted, and the process does not
crash — but the run is not cut short: the pipeline still executes and
the full message is still assembled. -/
theorem missing_token_reported_not_fatal :
    ∀ r : FetchResults, r.line_token = none →
      (runMain r).credErrorReported = true
      ∧ (runMain r).broadcastAttempted = false
      ∧ (runMain r).messageText = message_text r := by
  intro r h
  refine ⟨?_, ?_, rfl⟩ <;> simp [runMain, h]

/-- Witness for C9 (amended) at the concrete run `r_noToken`. -/
theorem missing_token_reported_not_fatal_witness :
    (runMain r_noToken).credErrorReported = true
    ∧ (runMain r_noToken).broadcastAttempted = false
    ∧ (runMain r_noToken).messageText = message_text r_noToken :=
  missing_token_reported_not_fatal r_noToken rfl

end SmartDCA


namespace SmartDCA

/-! ## C10: format_price -/

theorem digitChar_lt_isDigit {n : ℕ} (h : n < 10) : (Nat.digitChar n).isDigit := by
  have hall : ∀ m < 10, (Nat.digitChar m).isDigit := by decide
  exact hall n h

theorem digitChar_mod_isDigit (n : ℕ) : (Nat.digitChar (n % 10)).isDigit :=
  digitChar_lt_isDigit (Nat.mod_lt n (by norm_num))

theorem isDigit_ne_dot {c : Char} (h : c.isDigit) : c ≠ '.' := by
  rintro rfl; exact absurd h (by decide)

theorem isDigit_ne_comma {c : Char} (h : c.isDigit) : c ≠ ',' := by
  rintro rfl; exact absurd h (by decide)

theorem isDigit_ne_dash {c : Char} (h : c.isDigit) : c ≠ '-' := by
  rintro rfl; exact absurd h (by decide)

theorem length_padDigits (k : ℕ) : ∀ n : ℕ, (padDigits k n).length = k := by
  induction k with
  | zero => intro n; rfl
  | succ k ih => intro n; simp [padDigits, ih]

theorem padDigits_isDigit (k : ℕ) : ∀ n : ℕ, ∀ c ∈ padDigits k n, c.isDigit := by
  induction k with
  | zero => simp [padDigits]
  | succ k ih =>
    intro n c hc
    rw [padDigits] at hc
    rcases List.mem_append.1 hc with h1 | h2
    · exact ih _ c h1
    · rw [List.mem_singleton.1 h2]
      exact digitChar_mod_isDigit n

theorem natDigitsMSF_isDigit (n : ℕ) : ∀ c ∈ natDigitsMSF n, c.isDigit := by
  induction n using Nat.strong_induction_on with
  | _ n ih =>
    rw [natDigitsMSF]
    split_ifs with h
    · intro c hc
      rw [List.mem_singleton.1 hc]
      exact digitChar_lt_isDigit h
    · intro c hc
      rcases List.mem_append.1 hc with h1 | h2
      · exact ih (n / 10) (Nat.div_lt_self (by omega) (by omega)) c h1
      · rw [List.mem_singleton.1 h2]
        exact digitChar_mod_isDigit n

theorem group3r_filter (l : List Char) (h : ',' ∉ l) :
    (group3r l).filter (fun c => c != ',') = l := by
  induction l using group3r.induct with
  | case1 a b c d rest ih =>
    simp only [List.mem_cons, not_or] at h
    obtain ⟨h1, h2, h3, h4, h5⟩ := h
    have hrest : ',' ∉ d :: rest := by
      simp only [List.mem_cons, not_or]; exact ⟨h4, h5⟩
    simp only [group3r]
    rw [List.filter_cons_of_pos (by simp; exact Ne.symm h1),
      List.filter_cons_of_pos (by simp; exact Ne.symm h2),
      List.filter_cons_of_pos (by simp; exact Ne.symm h3),
      List.filter_cons_of_neg (by simp), ih hrest]
  | case2 l hshape =>
    have hl : group3r l = l := by
      cases l with
      | nil => rfl
      | cons a t => cases t with
        | nil => rfl
        | cons b t2 => cases t2 with
          | nil => rfl
          | cons c t3 => cases t3 with
            | nil => rfl
            | cons d t4 => exact absurd rfl (hshape a b c d t4)
    rw [hl]
    apply List.filter_eq_self.2
    intro c hc
    simp
    intro he
    exact h (he ▸ hc)

theorem group3r_count (l : List Char) (h : ',' ∉ l) :
    (group3r l).count ',' = (l.length - 1) / 3 := by
  induction l using group3r.induct with
  | case1 a b c d rest ih =>
    simp only [List.mem_cons, not_or] at h
    obtain ⟨h1, h2, h3, h4, h5⟩ := h
    have hrest : ',' ∉ d :: rest := by
      simp only [List.mem_cons, not_or]; exact ⟨h4, h5⟩
    simp only [group3r]
    rw [List.count_cons_of_ne h1, List.count_cons_of_ne h2, List.count_cons_of_ne h3,
      List.count_cons_self, ih hrest]
    simp only [List.length_cons]
    omega
  | case2 l hshape =>
    have hl : group3r l = l ∧ l.length ≤ 3 := by
      cases l with
      | nil => exact ⟨rfl, by simp⟩
      | cons a t => cases t with
        | nil => exact ⟨rfl, by simp⟩
        | cons b t2 => cases t2 with
          | nil => exact ⟨rfl, by simp⟩
          | cons c t3 => cases t3 with
            | nil => exact ⟨rfl, by simp⟩
            | cons d t4 => exact absurd rfl (hshape a b c d t4)
    rw [hl.1, List.count_eq_zero.2 h]
    omega

theorem group3r_mem (l : List Char) :
    ∀ c ∈ group3r l, c ∈ l ∨ c = ',' := by
  induction l using group3r.induct with
  | case1 a b c d rest ih =>
    intro x hx
    simp only [group3r, List.mem_cons] at hx
    rcases hx with rfl | rfl | rfl | rfl | hx
    · exact Or.inl (by simp)
    · exact Or.inl (by simp)
    · exact Or.inl (by simp)
    · exact Or.inr rfl
    · rcases ih x hx with hm | he
      · exact Or.inl (by simp [List.mem_cons] at hm ⊢; tauto)
      · exact Or.inr he
  | case2 l hshape =>
    have hl : group3r l = l := by
      cases l with
      | nil => rfl
      | cons a t => cases t with
        | nil => rfl
        | cons b t2 => cases t2 with
          | nil => rfl
          | cons c t3 => cases t3 with
            | nil => rfl
            | cons d t4 => exact absurd rfl (hshape a b c d t4)
    rw [hl]
    exact fun c hc => Or.inl hc

theorem dropWhile_ne_dot_append (l1 l2 : List Char) (h : ∀ c ∈ l1, c ≠ '.') :
    (l1 ++ l2).dropWhile (fun c => c != '.') = l2.dropWhile (fun c => c != '.') := by
  induction l1 with
  | nil => rfl
  | cons a t ih =>
    rw [List.cons_append, List.dropWhile_cons_of_pos (by simp [h a (by simp)]),
      ih (fun c hc => h c (by simp [hc]))]

theorem pyRound_one_le {q : ℚ} (h : 1 ≤ q) : 1 ≤ pyRound q := by
  have hf : (1:ℤ) ≤ ⌊q⌋ := by
    rw [Int.le_floor]; exact_mod_cast h
  unfold pyRound
  dsimp only
  split_ifs <;> omega

theorem format_price_none : format_price none = "N/A" := rfl

theorem format_price_lt_one (q : ℚ) (h : q < 1) :
    (format_price (some q)).data.count '.' = 1
    ∧ ((format_price (some q)).data.dropWhile (fun c => c != '.')).tail.length = 8
    ∧ ∀ c ∈ ((format_price (some q)).data.dropWhile (fun c => c != '.')).tail, c.isDigit := by
  have he : format_price (some q) = formatFixed8 q := by
    simp [format_price, h]
  rw [he]
  have hd : (formatFixed8 q).data
      = ((if q < 0 then ['-'] else []) ++ natDigitsMSF ((pyRound (q * 10 ^ 8)).natAbs / 10 ^ 8))
        ++ '.' :: padDigits 8 ((pyRound (q * 10 ^ 8)).natAbs % 10 ^ 8) := by
    simp [formatFixed8]
  rw [hd]
  have hpre : ∀ c ∈ (if q < 0 then ['-'] else [])
      ++ natDigitsMSF ((pyRound (q * 10 ^ 8)).natAbs / 10 ^ 8), c ≠ '.' := by
    intro c hc
    rcases List.mem_append.1 hc with h1 | h2
    · split_ifs at h1 with hq
      · rw [List.mem_singleton.1 h1]; decide
      · simp at h1
    · exact isDigit_ne_dot (natDigitsMSF_isDigit _ c h2)
  refine ⟨?_, ?_, ?_⟩
  · rw [List.count_append, List.count_eq_zero.2, List.count_cons_self,
      List.count_eq_zero.2, Nat.zero_add, Nat.zero_add]
    · intro hc
      exact isDigit_ne_dot (padDigits_isDigit 8 _ '.' hc) rfl
    · intro hc
      exact hpre '.' hc rfl
  · rw [dropWhile_ne_dot_append _ _ hpre, List.dropWhile_cons_of_neg (by simp),
      List.tail_cons, length_padDigits]
  · rw [dropWhile_ne_dot_append _ _ hpre, List.dropWhile_cons_of_neg (by simp),
      List.tail_cons]
    exact padDigits_isDigit 8 _

theorem format_price_ge_one (q : ℚ) (h : 1 ≤ q) :
    '.' ∉ (format_price (some q)).data
    ∧ (format_price (some q)).data.filter (fun c => c != ',')
        = natDigitsMSF (pyRound q).natAbs
    ∧ (format_price (some q)).data.count ','
        = ((natDigitsMSF (pyRound q).natAbs).length - 1) / 3 := by
  have he : format_price (some q) = intGrouped (pyRound q) := by
    simp [format_price, not_lt.2 h]
  have hz : ¬ pyRound q < 0 := by
    have := pyRound_one_le h
    omega
  have hd : (intGrouped (pyRound q)).data = group3 (natDigitsMSF (pyRound q).natAbs) := by
    simp [intGrouped, hz]
  have hnc : ',' ∉ (natDigitsMSF (pyRound q).natAbs).reverse := by
    intro hc
    exact isDigit_ne_comma (natDigitsMSF_isDigit _ ',' (List.mem_reverse.1 hc)) rfl
  rw [he, hd]
  refine ⟨?_, ?_, ?_⟩
  · intro hc
    unfold group3 at hc
    rcases group3r_mem _ '.' (List.mem_reverse.1 hc) with hm | he2
    · exact isDigit_ne_dot (natDigitsMSF_isDigit _ '.' (List.mem_reverse.1 hm)) rfl
    · exact absurd he2 (by decide)
  · unfold group3
    rw [List.filter_reverse, group3r_filter _ hnc, List.reverse_reverse]
  · unfold group3
    rw [List.count_reverse, group3r_count _ hnc, List.length_reverse]

/-- C10: `format_price` is total: `None` renders as `"N/A"`; a price
strictly below 1 renders in fixed-point with exactly 8 digits after the
single decimal point; a price at least 1 renders with no decimal point,
its characters being the decimal digits of the half-even-rounded value
interleaved with thousands separators — erasing the commas yields
exactly the digit string, and the number of commas is `(digits-1)/3`. -/
theorem format_price_spec :
    format_price none = "N/A"
    ∧ (∀ q : ℚ, q < 1 →
        (format_price (some q)).data.count '.' = 1
        ∧ ((format_price (some q)).data.dropWhile (fun c => c != '.')).tail.length = 8
        ∧ ∀ c ∈ ((format_price (some q)).data.dropWhile (fun c => c != '.')).tail,
            c.isDigit)
    ∧ ∀ q : ℚ, 1 ≤ q →
        '.' ∉ (format_price (some q)).data
        ∧ (format_price (some q)).data.filter (fun c => c != ',')
            = natDigitsMSF (pyRound q).natAbs
        ∧ (format_price (some q)).data.count ','
            = ((natDigitsMSF (pyRound q).natAbs).length - 1) / 3 :=
  ⟨format_price_none, format_price_lt_one, format_price_ge_one⟩

/-- Witness for C10 at the concrete prices 1/2 (below 1) and 1234. -/
theorem format_price_spec_witness :
    ((format_price (some ((1:ℚ)/2))).data.count '.' = 1
      ∧ ((format_price (some ((1:ℚ)/2))).data.dropWhile (fun c => c != '.')).tail.length = 8
      ∧ ∀ c ∈ ((format_price (some ((1:ℚ)/2))).data.dropWhile (fun c => c != '.')).tail,
          c.isDigit)
    ∧ ('.' ∉ (format_price (some (1234 : ℚ))).data
      ∧ (format_price (some (1234 : ℚ))).data.filter (fun c => c != ',')
          = natDigitsMSF (pyRound 1234).natAbs
      ∧ (format_price (some (1234 : ℚ))).data.count ','
          = ((natDigitsMSF (pyRound 1234).natAbs).length - 1) / 3) :=
  ⟨format_price_spec.2.1 _ (by norm_num), format_price_spec.2.2 _ (by norm_num)⟩

end SmartDCA
